import Mathlib

/- Verification of the chatbot-3 job-lookup demo: a shallow embedding of
   src/zoho_api.py and src/openai_api.py (the Streamlit UI in
   src/streamlit_app.py is presentation-only) together with proofs of the
   specification claims about them.

   Modelling conventions:
   * Python dicts are association lists over `String` keys; JSON-ish values
     are the inductive `JVal`; Python exceptions are `Except String`.
   * Network effects (`requests.get`, `requests.post`, the OpenAI call) are
     parameters: each embedded function takes the response(s) the transport
     would deliver, `Except String HttpResp` with `.error` for a transport
     failure (a raised `requests` exception).
   * Python `\s` and `str.strip()` whitespace is modelled by the ASCII
     whitespace characters (the only ones the program's data contains). -/

set_option linter.unusedVariables false

/-- JSON-like values exchanged with the external APIs (Python dicts are
    association lists; numbers are modelled as integers). -/
inductive JVal where
  | null
  | bool (b : Bool)
  | num (n : Int)
  | str (s : String)
  | arr (elems : List JVal)
  | obj (fields : List (String × JVal))

/-- Python truthiness of a JSON value (`if v:`). -/
def JVal.truthy : JVal → Bool
  | .null => false
  | .bool b => b
  | .num n => n != 0
  | .str s => !s.isEmpty
  | .arr l => !l.isEmpty
  | .obj f => !f.isEmpty

/-- Truthiness of a `dict.get` result (a missing key gives `None`, falsy). -/
def truthyO : Option JVal → Bool
  | none => false
  | some v => v.truthy

/-- Association-list lookup: the embedding of `dict[...]` / `dict.get(...)`. -/
def plookup (k : String) : List (String × JVal) → Option JVal
  | [] => none
  | (k', v) :: rest => if k' = k then some v else plookup k rest

/-- Python `len` on a JSON value; raises `TypeError` on values without length. -/
def pyLen : JVal → Except String Nat
  | .str s => .ok s.length
  | .arr l => .ok l.length
  | .obj f => .ok f.length
  | _ => .error "TypeError"

/-- Python `[0]` indexing on a JSON value: first array element, first character
    of a string, `KeyError` on a dict without an integer key, `TypeError`
    otherwise. -/
def pyIndexZero : JVal → Except String JVal
  | .arr [] => .error "IndexError"
  | .arr (x :: _) => .ok x
  | .str s =>
    match s.data with
    | [] => .error "IndexError"
    | c :: _ => .ok (.str (String.mk [c]))
  | .obj _ => .error "KeyError"
  | _ => .error "TypeError"

/-- `dict.get(k, dflt)`: total lookup with a default. -/
def pyDictGet (f : List (String × JVal)) (k : String) (dflt : JVal) : JVal :=
  (plookup k f).getD dflt

/-- An HTTP response as the program observes it: `status_code`, the parsed
    JSON body (`response.json()`), and the raw `response.text`. -/
structure HttpResp where
  status : Nat
  body : JVal
  text : String

/- ====================================================================
   src/zoho_api.py
   ==================================================================== -/

/-- Module-level state of `zoho_api.py` (second, active version of the file):
    the `ZOHO_ACCESS_TOKEN` read from the environment at import time. The
    client id/secret are string constants and play no role in the claims. -/
structure ModuleState where
  zoho_access_token : String

/-- `dict.get` on a JSON value; the bodies the token endpoint returns are JSON
    objects, so only the object case is exercised. -/
def jget (v : JVal) (k : String) : Option JVal :=
  match v with
  | .obj f => plookup k f
  | _ => none

/-- Result of `get_fresh_access_token_from_refresh` (zoho_api.py:134-178):
    the success dict, the HTTP-error dict (`"HTTP {status}"` plus
    `response.text`), or the exception dict (`"Request failed"`). -/
inductive TokenResult where
  | ok (access_token refresh_token : Option JVal) (expires_in : JVal) (raw : JVal)
  | httpError (code : String) (message : String)
  | requestFailed (message : String)

/-- Embedding of `get_fresh_access_token_from_refresh` (zoho_api.py:134-178).
    `resp` is the outcome of `requests.post` to the token endpoint. The
    function reads only the module constants and returns the module state it
    was given: it contains no `global` statement and assigns no module
    variable. -/
def get_fresh_access_token_from_refresh (st : ModuleState) (refresh_token : String)
    (resp : Except String HttpResp) : TokenResult × ModuleState :=
  match resp with
  | .ok r =>
    if r.status = 200 then
      (TokenResult.ok (jget r.body "access_token") (jget r.body "refresh_token")
        ((jget r.body "expires_in").getD (JVal.num 3600)) r.body, st)
    else
      (TokenResult.httpError ("HTTP " ++ toString r.status) r.text, st)
  | .error e => (TokenResult.requestFailed e, st)

/-- Result of `fetch_job_data` (zoho_api.py:184-214): the parsed body on a 200,
    the API-error dict (carrying `status_code` and a message) on any other
    status, and the request-error dict on a transport exception. -/
inductive FetchResult where
  | success (body : JVal)
  | apiError (status : Nat) (message : String)
  | requestError (message : String)

/-- The URL `fetch_job_data` requests. -/
def fetch_job_url (job_id : String) : String :=
  "https://recruit.zoho.com/recruit/v2/JobOpenings/" ++ job_id

/-- The Authorization header value `fetch_job_data` sends, built from the
    module-level `ZOHO_ACCESS_TOKEN`. -/
def fetch_auth_header (st : ModuleState) : String :=
  "Zoho-oauthtoken " ++ st.zoho_access_token

/-- Embedding of `fetch_job_data` (zoho_api.py:184-214). `resp` is the outcome
    of `requests.get (fetch_job_url job_id)` sent with
    `fetch_auth_header st`. -/
def fetch_job_data (st : ModuleState) (job_id : String)
    (resp : Except String HttpResp) : FetchResult :=
  match resp with
  | .ok r =>
    if r.status = 200 then FetchResult.success r.body
    else FetchResult.apiError r.status ("API Error: " ++ toString r.status)
  | .error e => FetchResult.requestError ("Request failed: " ++ e)

/-- Result of `make_zoho_api_request` (zoho_api.py:78-112, first version of the
    file): the response JSON on success, the token-missing error dict, or the
    modelled status-error dict. -/
inductive ApiResult where
  | json (body : JVal)
  | errorMsg (message : String)
  | errorStatus (status : Nat) (message : String)

/-- `get_valid_access_token` (zoho_api.py:62-76): return the cached token if
    present, otherwise perform one refresh. The second component counts
    invocations of `get_fresh_access_token`. -/
def get_valid_access_token (current : Option String) (refreshResult : Option String) :
    Option String × Nat :=
  match current with
  | some t => (some t, 0)
  | none => (refreshResult, 1)

/-- Finalisation of a response by `make_zoho_api_request`. Modelled from the
    spec: the source file is truncated mid-function at zoho_api.py:112
    (`if fresh`), so the post-retry handling — "on non-success status, returns
    a structured error carrying the status code and a message" — is taken from
    spec sections 4.1 and 7. -/
def zoho_finalize (r : HttpResp) : ApiResult :=
  if r.status = 200 then ApiResult.json r.body
  else ApiResult.errorStatus r.status ("API Error: " ++ toString r.status)

/-- Embedding of `make_zoho_api_request` (zoho_api.py:78-112). The prefix up
    to the 401-triggered refresh is in the source; the tail is modelled from
    the spec: "on receiving an authorization failure, triggers exactly one
    token refresh and retries the original request once; a second failure is
    surfaced as a final error". `resp1`/`resp2` are the successive outcomes of
    `requests.get`; `refreshResult` is what `get_fresh_access_token` would
    return; the second component of the result counts refresh invocations. -/
def make_zoho_api_request (resp1 resp2 : HttpResp) (refreshResult : Option String)
    (current : Option String) (retry_on_401 : Bool) : ApiResult × Nat :=
  match get_valid_access_token current refreshResult with
  | (none, n) => (ApiResult.errorMsg "Unable to get valid access token", n)
  | (some _, n) =>
    if resp1.status = 401 ∧ retry_on_401 = true then
      match refreshResult with
      | some _ => (zoho_finalize resp2, n + 1)
      | none => (ApiResult.errorMsg "Unable to get valid access token", n + 1)
    else (zoho_finalize resp1, n)

/-- The flat record built by `extract_job_info` (zoho_api.py:235-251). Field
    values keep their Python heterogeneity as `JVal`. -/
structure JobInfo where
  job_id : JVal
  requisition_number : JVal
  job_title : JVal
  posting_title : JVal
  job_description : JVal
  salary : JVal
  currency : JVal
  status : JVal
  remote_job : JVal
  date_opened : JVal
  target_date : JVal
  work_experience : JVal
  number_of_positions : JVal
  client_name : JVal
  account_manager : JVal

/-- The nested-relation access
    `job_info.get(k, {}).get('name', '') if job_info.get(k) else ''`
    (zoho_api.py:249-250); raises `AttributeError` when the relation value is
    truthy but not a dict. -/
def relation_field (f : List (String × JVal)) (k : String) : Except String JVal :=
  if truthyO (plookup k f) then
    match plookup k f with
    | some (JVal.obj g) => Except.ok (pyDictGet g "name" (JVal.str ""))
    | _ => Except.error "AttributeError"
  else Except.ok (JVal.str "")

/-- The value `relation_field` yields when it does not raise. -/
def relValue (v : Option JVal) : JVal :=
  match v with
  | some (JVal.obj g) =>
    if (JVal.obj g).truthy then pyDictGet g "name" (JVal.str "") else JVal.str ""
  | _ => JVal.str ""

/-- Embedding of `extract_job_info` (zoho_api.py:216-253). Python exceptions
    (`TypeError`, `IndexError`, `KeyError`, `AttributeError`) surface as
    `.error`. -/
def extract_job_info (job_data : List (String × JVal)) : Except String (Option JobInfo) :=
  if job_data.isEmpty || truthyO (plookup "error" job_data) then .ok none
  else
    match plookup "data" job_data with
    | none => .ok none
    | some dataVal =>
      match pyLen dataVal with
      | .error e => .error e
      | .ok 0 => .ok none
      | .ok (_ + 1) =>
        match pyIndexZero dataVal with
        | .error e => .error e
        | .ok (JVal.obj f) =>
          match relation_field f "Client_Name" with
          | .error e => .error e
          | .ok cn =>
            match relation_field f "Account_Manager" with
            | .error e => .error e
            | .ok am =>
              .ok (some
                ⟨pyDictGet f "id" (JVal.str ""),
                 pyDictGet f "Job_Opening_ID" (JVal.str ""),
                 pyDictGet f "Job_Opening_Name" (JVal.str ""),
                 pyDictGet f "Posting_Title" (JVal.str ""),
                 pyDictGet f "Job_Description" (JVal.str ""),
                 pyDictGet f "Salary" (JVal.str ""),
                 pyDictGet f "$currency_symbol" (JVal.str ""),
                 pyDictGet f "Job_Opening_Status" (JVal.str ""),
                 pyDictGet f "Remote_Job" (JVal.bool false),
                 pyDictGet f "Date_Opened" (JVal.str ""),
                 pyDictGet f "Target_Date" (JVal.str ""),
                 pyDictGet f "Work_Experience" (JVal.str ""),
                 pyDictGet f "Number_of_Positions" (JVal.str ""),
                 cn, am⟩)
        | .ok _ => .error "AttributeError"

/- ====================================================================
   clean_job_description (zoho_api.py:255-275)
   ==================================================================== -/

/-- ASCII whitespace, the characters Python's `\s` and `str.strip()` treat as
    whitespace on this program's data. -/
def pySpace (c : Char) : Bool :=
  c = ' ' || c = '\t' || c = '\n' || c = '\r' || c = '\x0b' || c = '\x0c'

/-- The suffix after the first `'>'`, if any: the tail a match of `<[^>]+>`
    starting at the preceding `'<'` would leave behind. -/
def afterFirstGt : List Char → Option (List Char)
  | [] => none
  | c :: rest => if c = '>' then some rest else afterFirstGt rest

/-- One left-to-right pass of `re.sub(r'<[^>]+>', '', ·)`: at each `'<'`, a
    match runs to the first following `'>'` provided at least one non-`'>'`
    character stands between; otherwise the character is kept and scanning
    continues. The fuel argument (always instantiated with the list length,
    which suffices since every step consumes at least one character) keeps the
    recursion structural. -/
def removeTagsGo : Nat → List Char → List Char
  | _, [] => []
  | 0, l => l
  | n + 1, c :: rest =>
    if c = '<' then
      match rest with
      | [] => [c]
      | d :: _ =>
        if d = '>' then c :: removeTagsGo n rest
        else
          match afterFirstGt rest with
          | some r => removeTagsGo n r
          | none => c :: removeTagsGo n rest
    else c :: removeTagsGo n rest

/-- `re.sub(r'<[^>]+>', '', ·)` (zoho_api.py:269). -/
def removeTags (l : List Char) : List Char :=
  removeTagsGo l.length l

/-- `re.sub(r'\s+', ' ', ·)` (zoho_api.py:272): collapse every whitespace run
    to a single space. The boolean records whether the previous character was
    part of a whitespace run. -/
def collapseGo : Bool → List Char → List Char
  | _, [] => []
  | b, c :: rest =>
    if pySpace c then
      if b then collapseGo true rest else ' ' :: collapseGo true rest
    else c :: collapseGo false rest

/-- `re.sub(r'\s+', ' ', ·)` from the start of the string. -/
def collapseWs (l : List Char) : List Char :=
  collapseGo false l

/-- Leading part of `str.strip()`. -/
def stripLeading (l : List Char) : List Char :=
  l.dropWhile pySpace

/-- Trailing part of `str.strip()`. -/
def stripTrailing (l : List Char) : List Char :=
  (l.reverse.dropWhile pySpace).reverse

/-- `str.strip()` (zoho_api.py:273). -/
def pyStrip (l : List Char) : List Char :=
  stripTrailing (stripLeading l)

/-- The whole cleaning pipeline on character lists. -/
def cleanList (l : List Char) : List Char :=
  pyStrip (collapseWs (removeTags l))

/-- Embedding of `clean_job_description` (zoho_api.py:255-275). -/
def clean_job_description (s : String) : String :=
  if s = "" then "" else String.mk (cleanList s.data)

/- ====================================================================
   get_job_for_similarity (zoho_api.py:277-313)
   ==================================================================== -/

/-- The `metadata` sub-dict of the similarity payload (zoho_api.py:304-310). -/
structure SimMeta where
  salary : JVal
  status : JVal
  remote : JVal
  experience_required : JVal
  client : JVal

/-- The similarity payload built by `get_job_for_similarity`
    (zoho_api.py:298-311). `raw_description` carries the `Job_Description`
    value as extracted (heterogeneous in Python). -/
structure SimPayload where
  job_id : JVal
  requisition_number : JVal
  title : JVal
  clean_description : String
  raw_description : JVal
  metadata : SimMeta

/-- `clean_job_description` as `get_job_for_similarity` calls it, on the
    heterogeneous `Job_Description` value: the `if not job_description:
    return ""` guard short-circuits on any falsy value (None, False, 0, "",
    empty containers) before `re.sub` runs, yielding ""; a truthy string is
    cleaned normally; a truthy non-string reaches `re.sub`, which raises
    `TypeError`. -/
def clean_job_description_py (v : JVal) : Except String String :=
  if v.truthy then
    match v with
    | .str s => .ok (clean_job_description s)
    | _ => .error "TypeError"
  else .ok ""

/-- Embedding of `get_job_for_similarity` (zoho_api.py:277-313), parameterised
    by the raw fetch response body (`fetch_job_data`'s successful dict). -/
def get_job_for_similarity (raw : List (String × JVal)) : Except String (Option SimPayload) :=
  if raw.isEmpty || truthyO (plookup "error" raw) then .ok none
  else
    match extract_job_info raw with
    | .error e => .error e
    | .ok none => .ok none
    | .ok (some info) =>
      match clean_job_description_py info.job_description with
      | .error e => .error e
      | .ok cd =>
        .ok (some
          ⟨info.job_id, info.requisition_number, info.job_title,
           cd, info.job_description,
           ⟨info.salary, info.status, info.remote_job,
            info.work_experience, info.client_name⟩⟩)

/- ====================================================================
   src/openai_api.py
   ==================================================================== -/

/-- The `metadata` mapping of a similarity payload as `prepare_embedding_text`
    and `embed_job_with_metadata` consume it (the shapes the zoho module
    produces on its intended data: strings, plus the boolean remote flag,
    `none` when the key is absent). -/
structure SimilarityMetadata where
  salary : String
  status : String
  remote : Option Bool
  experience_required : String
  client : String
deriving DecidableEq

/-- A similarity payload on the openai_api.py side. -/
structure SimilarityData where
  job_id : String
  requisition_number : String
  title : String
  clean_description : String
  metadata : SimilarityMetadata
deriving DecidableEq

/-- Truthiness of `metadata.get('remote')`: `None` (absent) and `False` are
    falsy. -/
def truthyRemote : Option Bool → Bool
  | some b => b
  | none => false

/-- One conditional `embedding_text_parts.append(...)` of
    `prepare_embedding_text`. -/
def optSection (P : Prop) [Decidable P] (s : String) : List String :=
  if P then [s] else []

/-- The `embedding_text_parts` list built by `prepare_embedding_text`
    (openai_api.py:37-58), in source order. -/
def embedding_text_parts (d : SimilarityData) : List String :=
  optSection (d.title ≠ "") ("Job Title: " ++ d.title) ++
  optSection (d.clean_description ≠ "") ("Job Description: " ++ d.clean_description) ++
  optSection (d.metadata.experience_required ≠ "")
    ("Experience Required: " ++ d.metadata.experience_required) ++
  optSection (d.metadata.salary ≠ "") ("Salary: $" ++ d.metadata.salary) ++
  optSection (truthyRemote d.metadata.remote = true)
    (if truthyRemote d.metadata.remote = true then "Remote Work: Available"
     else "Remote Work: Not Available") ++
  optSection (d.metadata.client ≠ "") ("Client: " ++ d.metadata.client)

/-- Python `sep.join(parts)`. -/
def pyJoin (sep : String) : List String → String
  | [] => ""
  | [a] => a
  | a :: b :: rest => a ++ sep ++ pyJoin sep (b :: rest)

/-- Embedding of `prepare_embedding_text` (openai_api.py:21-63). -/
def prepare_embedding_text (d : SimilarityData) : String :=
  pyJoin "\n\n" (embedding_text_parts d)

/-- Embedding of `embed_job_description` (openai_api.py:65-94). `provider` is
    the embedding call: `.ok` with the extracted vector, `.error` for any
    exception the `try` block catches (API error, missing data). The element
    type of the vector is abstract. -/
def embed_job_description (α : Type) (provider : String → Except String (List α))
    (job_text : String) : Option (List α) :=
  match provider job_text with
  | .ok v => some v
  | .error _ => none

/-- The metadata dict stored next to the vector by `embed_job_with_metadata`
    (openai_api.py:121-132). -/
structure EmbeddingMetadata where
  zoho_job_id : String
  requisition_number : String
  job_title : String
  time_to_fill : Nat
  salary : String
  client : String
  remote : Bool
  experience_required : String
  status : String
  embedding_text : String
deriving DecidableEq

/-- The result dict of `embed_job_with_metadata` (openai_api.py:119-133). -/
structure EmbeddingData (α : Type) where
  vector : List α
  metadata : EmbeddingMetadata

/-- `embedding_text[:500] + "..." if len(embedding_text) > 500 else
    embedding_text` (openai_api.py:131). -/
def pyTruncate500 (t : String) : String :=
  if t.length > 500 then String.mk (t.data.take 500) ++ "..." else t

/-- Embedding of `embed_job_with_metadata` (openai_api.py:96-135).
    `time_to_fill` stands for the `random.randint(20, 80)` sample. Note
    `if not embedding_vector:` also treats an empty vector as a failure. -/
def embed_job_with_metadata (α : Type) (provider : String → Except String (List α))
    (time_to_fill : Nat) (d : SimilarityData) : Option (EmbeddingData α) :=
  let text := prepare_embedding_text d
  match embed_job_description α provider text with
  | none => none
  | some v =>
    if v.isEmpty then none
    else
      some ⟨v,
        ⟨d.job_id, d.requisition_number, d.title, time_to_fill,
         d.metadata.salary, d.metadata.client, d.metadata.remote.getD false,
         d.metadata.experience_required, d.metadata.status,
         pyTruncate500 text⟩⟩

/- ====================================================================
   Predicates used to state the claims, and concrete witness data
   ==================================================================== -/

/-- The output contains no match of the tag pattern `<[^>]+>`: every
    decomposition around a bracketed span with non-empty interior has a `'>'`
    inside the interior. -/
def NoTagPattern (l : List Char) : Prop :=
  ∀ a m b, l = a ++ '<' :: (m ++ '>' :: b) → m = [] ∨ '>' ∈ m

/-- No two consecutive whitespace characters. -/
def NoDoubleWs (l : List Char) : Prop :=
  ∀ a c d b, l = a ++ c :: d :: b → pySpace c = false ∨ pySpace d = false

/-- Structural invariant of tag removal: every `'<'` either has no `'>'`
    anywhere after it or is immediately followed by one. -/
def TagInv : List Char → Prop
  | [] => True
  | c :: rest => (c = '<' → ('>' ∉ rest ∨ rest.head? = some '>')) ∧ TagInv rest

/-- The head, if any, is not whitespace. -/
def headNotSpace (l : List Char) : Prop :=
  ∀ c, l.head? = some c → pySpace c = false

/-- Structural invariant of whitespace collapsing: every whitespace character
    is a plain space and is not followed by another whitespace character. -/
def WsOk : List Char → Prop
  | [] => True
  | c :: rest => (pySpace c = true → (c = ' ' ∧ headNotSpace rest)) ∧ WsOk rest

/-- No leading and no trailing whitespace. -/
def StrippedL (l : List Char) : Prop :=
  headNotSpace l ∧ headNotSpace l.reverse

/-- Relation-field values the claims speak about: absent, null, or (as the
    upstream schema has it) a nested object. -/
def relOk (v : Option JVal) : Prop :=
  truthyO v = false ∨ ∃ g, v = some (JVal.obj g)

/-- A concrete raw response used to witness the payload invariant. -/
def c2raw : List (String × JVal) :=
  [("data", JVal.arr [JVal.obj [("Job_Description", JVal.str "<p>a</p>")]])]

/-- The payload `get_job_for_similarity` builds from `c2raw`. -/
def c2payload : SimPayload :=
  ⟨JVal.str "", JVal.str "", JVal.str "", "a", JVal.str "<p>a</p>",
   ⟨JVal.str "", JVal.str "", JVal.bool false, JVal.str "", JVal.str ""⟩⟩

/-- A concrete similarity payload used to witness the embedding claims. -/
def c6data : SimilarityData :=
  ⟨"id1", "rq1", "T", "D", ⟨"", "", none, "", ""⟩⟩

/- ====================================================================
   Helper lemmas
   ==================================================================== -/

theorem data_append (a b : String) : (a ++ b).data = a.data ++ b.data := rfl

theorem string_eq_of_data (a b : String) (h : a.data = b.data) : a = b := by
  cases a; cases b; exact congrArg String.mk h

theorem mem_optSection {x s : String} {P : Prop} [Decidable P]
    (h : x ∈ optSection P s) : P ∧ x = s := by
  by_cases hp : P
  · simp [optSection, hp] at h
    exact ⟨hp, h⟩
  · simp [optSection, hp] at h

theorem ne_of_head_append (p t q : String) (c₁ c₂ : Char)
    (h₁ : p.data.head? = some c₁) (h₂ : q.data.head? = some c₂) (hc : c₁ ≠ c₂) :
    p ++ t ≠ q := by
  intro h
  apply hc
  have hd : (p ++ t).data = p.data ++ t.data := rfl
  have h3 : (p.data ++ t.data).head? = some c₂ := by rw [← hd, h, h₂]
  cases hp : p.data with
  | nil => rw [hp] at h₁; simp at h₁
  | cons a l =>
    rw [hp] at h₁ h3
    simp only [List.cons_append, List.head?_cons, Option.some.injEq] at h₁ h3
    rw [← h₁, h3]

/- ====================================================================
   Claims
   ==================================================================== -/

/-- C1: for the authenticated request, a first response of status 401 followed
    (after a successful token refresh) by a second response of status 200
    yields the second response's body, with the refresh invoked exactly once;
    a second 401 is returned as a final structured error carrying the status,
    still with exactly one refresh. -/
theorem spec_C1_auth_retry (r1 r2 : HttpResp) (ft tok : String)
    (h401 : r1.status = 401) :
    (r2.status = 200 →
      make_zoho_api_request r1 r2 (some ft) (some tok) true = (ApiResult.json r2.body, 1))
    ∧ (r2.status = 401 →
      ∃ m, make_zoho_api_request r1 r2 (some ft) (some tok) true =
        (ApiResult.errorStatus 401 m, 1)) := by
  constructor
  · intro h200
    simp [make_zoho_api_request, get_valid_access_token, h401, zoho_finalize, h200]
  · intro h401'
    refine ⟨"API Error: " ++ toString 401, ?_⟩
    simp [make_zoho_api_request, get_valid_access_token, h401, zoho_finalize, h401']

theorem spec_C1_auth_retry_witness :
    make_zoho_api_request ⟨401, JVal.null, ""⟩ ⟨200, JVal.str "payload", ""⟩
      (some "fresh") (some "tok") true = (ApiResult.json (JVal.str "payload"), 1) :=
  (spec_C1_auth_retry ⟨401, JVal.null, ""⟩ ⟨200, JVal.str "payload", ""⟩
    "fresh" "tok" rfl).1 rfl

/-- C9: `fetch_job_data` never raises: on a non-200 status it returns the
    structured API-error carrying that status code and a message, on a
    transport failure it returns the structured request-error whose message is
    derived from the underlying failure, and on a 200 it returns the body. -/
theorem spec_C9_fetch_errors (st : ModuleState) (job_id : String)
    (resp : Except String HttpResp) :
    (∀ r, resp = .ok r → r.status ≠ 200 →
      fetch_job_data st job_id resp = FetchResult.apiError r.status
        ("API Error: " ++ toString r.status))
    ∧ (∀ e, resp = .error e →
      fetch_job_data st job_id resp = FetchResult.requestError ("Request failed: " ++ e))
    ∧ (∀ r, resp = .ok r → r.status = 200 →
      fetch_job_data st job_id resp = FetchResult.success r.body) := by
  refine ⟨?_, ?_, ?_⟩
  · intro r hr hs
    subst hr
    simp [fetch_job_data, hs]
  · intro e he
    subst he
    simp [fetch_job_data]
  · intro r hr hs
    subst hr
    simp [fetch_job_data, hs]

theorem spec_C9_fetch_errors_witness :
    fetch_job_data ⟨"tok"⟩ "job1" (.ok ⟨404, JVal.null, "not found"⟩) =
      FetchResult.apiError 404 ("API Error: " ++ toString 404) :=
  (spec_C9_fetch_errors ⟨"tok"⟩ "job1" (.ok ⟨404, JVal.null, "not found"⟩)).1
    ⟨404, JVal.null, "not found"⟩ rfl (by decide)

/-- C10: the token exchange modifies no module-level state: whatever the
    authorization code and the outcome of the exchange, the module state — and
    hence the Authorization header `fetch_job_data` builds from it — is the
    same before and after; the fresh token is only returned to the caller. -/
theorem spec_C10_token_exchange_pure (st : ModuleState) (code : String)
    (resp : Except String HttpResp) :
    (get_fresh_access_token_from_refresh st code resp).2 = st
    ∧ fetch_auth_header (get_fresh_access_token_from_refresh st code resp).2 =
        fetch_auth_header st := by
  have h2 : (get_fresh_access_token_from_refresh st code resp).2 = st := by
    cases resp with
    | ok r =>
      simp only [get_fresh_access_token_from_refresh]
      split <;> rfl
    | error e => rfl
  exact ⟨h2, by rw [h2]⟩

theorem optSection_sublist (P : Prop) [Decidable P] (s : String) :
    List.Sublist (optSection P s) [s] := by
  by_cases h : P
  · rw [optSection, if_pos h]
  · rw [optSection, if_neg h]
    exact List.nil_sublist _

/-- C4: for every payload, `prepare_embedding_text` emits a labeled section
    only when the corresponding field is present and non-empty (every element
    of the section list is one of the six labeled forms with its field
    non-empty, so no placeholder is ever emitted for an absent field), each
    non-empty field's section is emitted, and the section list is a sublist of
    the canonical six-section sequence — fixing the order title, description,
    experience, salary, remote, client; sections are joined by blank lines,
    and with only title and description present the output is exactly the two
    labeled lines joined by one blank line. -/
theorem spec_C4_prepare_sections :
    (∀ d : SimilarityData, ∀ s ∈ embedding_text_parts d,
      (s = "Job Title: " ++ d.title ∧ d.title ≠ "")
      ∨ (s = "Job Description: " ++ d.clean_description ∧ d.clean_description ≠ "")
      ∨ (s = "Experience Required: " ++ d.metadata.experience_required
          ∧ d.metadata.experience_required ≠ "")
      ∨ (s = "Salary: $" ++ d.metadata.salary ∧ d.metadata.salary ≠ "")
      ∨ (s = "Remote Work: Available" ∧ truthyRemote d.metadata.remote = true)
      ∨ (s = "Client: " ++ d.metadata.client ∧ d.metadata.client ≠ ""))
    ∧ (∀ d : SimilarityData,
      (d.title ≠ "" → "Job Title: " ++ d.title ∈ embedding_text_parts d)
      ∧ (d.clean_description ≠ "" →
          "Job Description: " ++ d.clean_description ∈ embedding_text_parts d)
      ∧ (d.metadata.experience_required ≠ "" →
          "Experience Required: " ++ d.metadata.experience_required
            ∈ embedding_text_parts d)
      ∧ (d.metadata.salary ≠ "" →
          "Salary: $" ++ d.metadata.salary ∈ embedding_text_parts d)
      ∧ (truthyRemote d.metadata.remote = true →
          "Remote Work: Available" ∈ embedding_text_parts d)
      ∧ (d.metadata.client ≠ "" →
          "Client: " ++ d.metadata.client ∈ embedding_text_parts d))
    ∧ (∀ d : SimilarityData,
      List.Sublist (embedding_text_parts d)
        ["Job Title: " ++ d.title, "Job Description: " ++ d.clean_description,
         "Experience Required: " ++ d.metadata.experience_required,
         "Salary: $" ++ d.metadata.salary, "Remote Work: Available",
         "Client: " ++ d.metadata.client])
    ∧ (∀ t dsc : String, t ≠ "" → dsc ≠ "" →
      prepare_embedding_text ⟨"", "", t, dsc, ⟨"", "", none, "", ""⟩⟩ =
        "Job Title: " ++ t ++ "\n\n" ++ "Job Description: " ++ dsc)
    ∧ (∀ t dsc ex sal cl stat : String,
        t ≠ "" → dsc ≠ "" → ex ≠ "" → sal ≠ "" → cl ≠ "" →
      prepare_embedding_text ⟨"", "", t, dsc, ⟨sal, stat, some true, ex, cl⟩⟩ =
        "Job Title: " ++ t ++ "\n\n" ++ "Job Description: " ++ dsc ++ "\n\n" ++
        "Experience Required: " ++ ex ++ "\n\n" ++ "Salary: $" ++ sal ++ "\n\n" ++
        "Remote Work: Available" ++ "\n\n" ++ "Client: " ++ cl) := by
  refine ⟨?_, ?_, ?_, ?_, ?_⟩
  · intro d s hs
    simp only [embedding_text_parts, List.mem_append, or_assoc] at hs
    rcases hs with h | h | h | h | h | h
    · obtain ⟨hP, hx⟩ := mem_optSection h
      exact Or.inl ⟨hx, hP⟩
    · obtain ⟨hP, hx⟩ := mem_optSection h
      exact Or.inr (Or.inl ⟨hx, hP⟩)
    · obtain ⟨hP, hx⟩ := mem_optSection h
      exact Or.inr (Or.inr (Or.inl ⟨hx, hP⟩))
    · obtain ⟨hP, hx⟩ := mem_optSection h
      exact Or.inr (Or.inr (Or.inr (Or.inl ⟨hx, hP⟩)))
    · obtain ⟨hP, hx⟩ := mem_optSection h
      rw [if_pos hP] at hx
      exact Or.inr (Or.inr (Or.inr (Or.inr (Or.inl ⟨hx, hP⟩))))
    · obtain ⟨hP, hx⟩ := mem_optSection h
      exact Or.inr (Or.inr (Or.inr (Or.inr (Or.inr ⟨hx, hP⟩))))
  · intro d
    refine ⟨?_, ?_, ?_, ?_, ?_, ?_⟩ <;> intro h <;>
      simp [embedding_text_parts, optSection, List.mem_append, h]
  · intro d
    have h1 := optSection_sublist (d.title ≠ "") ("Job Title: " ++ d.title)
    have h2 := optSection_sublist (d.clean_description ≠ "")
      ("Job Description: " ++ d.clean_description)
    have h3 := optSection_sublist (d.metadata.experience_required ≠ "")
      ("Experience Required: " ++ d.metadata.experience_required)
    have h4 := optSection_sublist (d.metadata.salary ≠ "")
      ("Salary: $" ++ d.metadata.salary)
    have h5 : List.Sublist (optSection (truthyRemote d.metadata.remote = true)
        (if truthyRemote d.metadata.remote = true then "Remote Work: Available"
         else "Remote Work: Not Available")) ["Remote Work: Available"] := by
      by_cases h : truthyRemote d.metadata.remote = true
      · rw [optSection, if_pos h, if_pos h]
      · rw [optSection, if_neg h]
        exact List.nil_sublist _
    have h6 := optSection_sublist (d.metadata.client ≠ "")
      ("Client: " ++ d.metadata.client)
    have hall := ((((h1.append h2).append h3).append h4).append h5).append h6
    simpa [embedding_text_parts] using hall
  · intro t dsc ht hd
    refine string_eq_of_data _ _ ?_
    simp [prepare_embedding_text, embedding_text_parts, optSection, ht, hd,
      truthyRemote, pyJoin, data_append, List.append_assoc]
  · intro t dsc ex sal cl stat ht hd hex hsal hcl
    refine string_eq_of_data _ _ ?_
    simp [prepare_embedding_text, embedding_text_parts, optSection, ht, hd, hex,
      hsal, hcl, truthyRemote, pyJoin, data_append, List.append_assoc]

theorem spec_C4_prepare_sections_witness :
    prepare_embedding_text ⟨"", "", "T", "D", ⟨"", "", none, "", ""⟩⟩ =
      "Job Title: T" ++ "\n\n" ++ "Job Description: D" :=
  (spec_C4_prepare_sections.2.2.2.1 "T" "D" (by decide) (by decide)).trans (by decide)

/-- C5 counterexample: for the payload whose metadata carries the remote flag
    with value false (and nothing else), `prepare_embedding_text` returns the
    empty string and the section list contains no "Remote Work: Not Available"
    entry — contradicting the claim that the section is emitted whenever the
    flag is present and false. -/
theorem spec_C5_remote_counterexample :
    prepare_embedding_text ⟨"", "", "", "", ⟨"", "", some false, "", ""⟩⟩ = ""
    ∧ "Remote Work: Not Available" ∉
        embedding_text_parts ⟨"", "", "", "", ⟨"", "", some false, "", ""⟩⟩ := by
  constructor
  · decide
  · decide

/-- C5 amended: when the metadata's remote flag is true the section
    "Remote Work: Available" is emitted; when the flag is absent or false no
    remote section is emitted at all; the string
    "Remote Work: Not Available" is never emitted (the else-branch of the
    ternary is dead code behind the truthiness guard). -/
theorem spec_C5_remote_amended (d : SimilarityData) :
    (d.metadata.remote = some true →
      "Remote Work: Available" ∈ embedding_text_parts d)
    ∧ (truthyRemote d.metadata.remote = false →
      ∀ s ∈ embedding_text_parts d,
        s ≠ "Remote Work: Available" ∧ s ≠ "Remote Work: Not Available")
    ∧ "Remote Work: Not Available" ∉ embedding_text_parts d := by
  have hT1 : ∀ t : String, "Job Title: " ++ t ≠ "Remote Work: Available" :=
    fun t => ne_of_head_append _ t _ 'J' 'R' (by decide) (by decide) (by decide)
  have hT2 : ∀ t : String, "Job Title: " ++ t ≠ "Remote Work: Not Available" :=
    fun t => ne_of_head_append _ t _ 'J' 'R' (by decide) (by decide) (by decide)
  have hD1 : ∀ t : String, "Job Description: " ++ t ≠ "Remote Work: Available" :=
    fun t => ne_of_head_append _ t _ 'J' 'R' (by decide) (by decide) (by decide)
  have hD2 : ∀ t : String, "Job Description: " ++ t ≠ "Remote Work: Not Available" :=
    fun t => ne_of_head_append _ t _ 'J' 'R' (by decide) (by decide) (by decide)
  have hE1 : ∀ t : String, "Experience Required: " ++ t ≠ "Remote Work: Available" :=
    fun t => ne_of_head_append _ t _ 'E' 'R' (by decide) (by decide) (by decide)
  have hE2 : ∀ t : String, "Experience Required: " ++ t ≠ "Remote Work: Not Available" :=
    fun t => ne_of_head_append _ t _ 'E' 'R' (by decide) (by decide) (by decide)
  have hS1 : ∀ t : String, "Salary: $" ++ t ≠ "Remote Work: Available" :=
    fun t => ne_of_head_append _ t _ 'S' 'R' (by decide) (by decide) (by decide)
  have hS2 : ∀ t : String, "Salary: $" ++ t ≠ "Remote Work: Not Available" :=
    fun t => ne_of_head_append _ t _ 'S' 'R' (by decide) (by decide) (by decide)
  have hC1 : ∀ t : String, "Client: " ++ t ≠ "Remote Work: Available" :=
    fun t => ne_of_head_append _ t _ 'C' 'R' (by decide) (by decide) (by decide)
  have hC2 : ∀ t : String, "Client: " ++ t ≠ "Remote Work: Not Available" :=
    fun t => ne_of_head_append _ t _ 'C' 'R' (by decide) (by decide) (by decide)
  refine ⟨?_, ?_, ?_⟩
  · intro hr
    simp [embedding_text_parts, optSection, List.mem_append, hr, truthyRemote]
  · intro hfalse s hs
    simp only [embedding_text_parts, List.mem_append, or_assoc] at hs
    rcases hs with h | h | h | h | h | h
    · obtain ⟨hP, hx⟩ := mem_optSection h
      subst hx
      exact ⟨hT1 _, hT2 _⟩
    · obtain ⟨hP, hx⟩ := mem_optSection h
      subst hx
      exact ⟨hD1 _, hD2 _⟩
    · obtain ⟨hP, hx⟩ := mem_optSection h
      subst hx
      exact ⟨hE1 _, hE2 _⟩
    · obtain ⟨hP, hx⟩ := mem_optSection h
      subst hx
      exact ⟨hS1 _, hS2 _⟩
    · obtain ⟨hP, hx⟩ := mem_optSection h
      exact absurd hP (by simp [hfalse])
    · obtain ⟨hP, hx⟩ := mem_optSection h
      subst hx
      exact ⟨hC1 _, hC2 _⟩
  · intro hmem
    simp only [embedding_text_parts, List.mem_append, or_assoc] at hmem
    rcases hmem with h | h | h | h | h | h
    · obtain ⟨hP, hx⟩ := mem_optSection h
      exact hT2 _ hx.symm
    · obtain ⟨hP, hx⟩ := mem_optSection h
      exact hD2 _ hx.symm
    · obtain ⟨hP, hx⟩ := mem_optSection h
      exact hE2 _ hx.symm
    · obtain ⟨hP, hx⟩ := mem_optSection h
      exact hS2 _ hx.symm
    · obtain ⟨hP, hx⟩ := mem_optSection h
      rw [if_pos hP] at hx
      exact absurd hx.symm (by decide)
    · obtain ⟨hP, hx⟩ := mem_optSection h
      exact hC2 _ hx.symm

theorem spec_C5_remote_amended_witness :
    "Remote Work: Available" ∈
      embedding_text_parts ⟨"", "", "", "", ⟨"", "", some true, "", ""⟩⟩ :=
  (spec_C5_remote_amended ⟨"", "", "", "", ⟨"", "", some true, "", ""⟩⟩).1 rfl

/-- C6: in a successful `embed_job_with_metadata` result, the stored
    embedding-text sample is exactly the first 500 characters of the embedded
    text followed by "..." when the text is longer than 500 characters, and
    the text verbatim otherwise. -/
theorem spec_C6_truncation (α : Type) (provider : String → Except String (List α))
    (ttf : Nat) (d : SimilarityData) (r : EmbeddingData α)
    (h : embed_job_with_metadata α provider ttf d = some r) :
    ((prepare_embedding_text d).length > 500 →
      r.metadata.embedding_text =
        String.mk ((prepare_embedding_text d).data.take 500) ++ "...")
    ∧ ((prepare_embedding_text d).length ≤ 500 →
      r.metadata.embedding_text = prepare_embedding_text d) := by
  simp only [embed_job_with_metadata] at h
  cases hv : embed_job_description α provider (prepare_embedding_text d) with
  | none =>
    rw [hv] at h
    exact absurd h (by simp)
  | some v =>
    rw [hv] at h
    by_cases he : v.isEmpty = true
    · simp [he] at h
    · simp [he] at h
      constructor
      · intro hlen
        rw [← h]
        simp [pyTruncate500, hlen]
      · intro hlen
        rw [← h]
        simp [pyTruncate500, Nat.not_lt.mpr hlen]

theorem spec_C6_truncation_witness :
    ∃ r : EmbeddingData Int,
      embed_job_with_metadata Int (fun _ => Except.ok [(1 : Int)]) 0 c6data = some r
      ∧ r.metadata.embedding_text = prepare_embedding_text c6data := by
  refine ⟨⟨[1], ⟨"id1", "rq1", "T", 0, "", "", false, "", "",
    "Job Title: T\n\nJob Description: D"⟩⟩, rfl, ?_⟩
  exact (spec_C6_truncation Int (fun _ => Except.ok [(1 : Int)]) 0 c6data _ rfl).2
    (by decide)

/-- C7: `embed_job_description` returns none on any provider error (the
    exception is swallowed, never propagated), and — under the provider
    contract that a successful embedding vector is non-empty —
    `embed_job_with_metadata` returns none exactly when the embedding step
    does. -/
theorem spec_C7_embed_errors (α : Type) (provider : String → Except String (List α))
    (ttf : Nat) (d : SimilarityData) :
    (∀ t e, provider t = .error e → embed_job_description α provider t = none)
    ∧ ((∀ v, provider (prepare_embedding_text d) = .ok v → v ≠ []) →
      (embed_job_with_metadata α provider ttf d = none ↔
        embed_job_description α provider (prepare_embedding_text d) = none)) := by
  constructor
  · intro t e he
    simp [embed_job_description, he]
  · intro hnz
    cases hv : provider (prepare_embedding_text d) with
    | error e =>
      simp [embed_job_with_metadata, embed_job_description, hv]
    | ok v =>
      have hne : v ≠ [] := hnz v hv
      have hie : v.isEmpty = false := by
        cases v with
        | nil => exact absurd rfl hne
        | cons a l => rfl
      simp [embed_job_with_metadata, embed_job_description, hv, hie]

theorem spec_C7_embed_errors_witness :
    embed_job_description Int (fun _ => Except.error "boom") "x" = none :=
  (spec_C7_embed_errors Int (fun _ => Except.error "boom") 0 c6data).1 "x" "boom" rfl

theorem relation_field_of_relOk (f : List (String × JVal)) (k : String)
    (h : relOk (plookup k f)) :
    relation_field f k = Except.ok (relValue (plookup k f)) := by
  rcases h with h | ⟨g, hg⟩
  · rw [relation_field, if_neg (by simp [h])]
    cases hv : plookup k f with
    | none => simp [relValue]
    | some x =>
      rw [hv] at h
      cases x with
      | obj g =>
        simp only [truthyO] at h
        simp [relValue, h]
      | null => simp [relValue]
      | bool b => simp [relValue]
      | num n => simp [relValue]
      | str s => simp [relValue]
      | arr l => simp [relValue]
  · rw [relation_field, hg]
    by_cases ht : (JVal.obj g).truthy = true
    · simp [truthyO, relValue, ht]
    · simp [truthyO, relValue, ht]

/-- C3 counterexample: on the response whose `data` array holds the string
    "x" — no error result, non-empty data — `extract_job_info` raises
    (`AttributeError`, since a string has no `.get`) instead of returning the
    claimed defaulted record; likewise a record whose `Client_Name` is a
    truthy non-object raises in the nested-relation access, forcing the
    relation guard of the amended claim. -/
theorem spec_C3_extract_counterexample :
    extract_job_info [("data", JVal.arr [JVal.str "x"])] = .error "AttributeError"
    ∧ truthyO (plookup "error" [("data", JVal.arr [JVal.str "x"])]) = false
    ∧ (∀ rec : JobInfo,
        extract_job_info [("data", JVal.arr [JVal.str "x"])] ≠ .ok (some rec))
    ∧ extract_job_info [("data", JVal.arr [JVal.obj [("Client_Name", JVal.str "x")]])] =
        .error "AttributeError" :=
  ⟨rfl, rfl, fun rec h => Except.noConfusion h, rfl⟩

/-- C3 amended: `extract_job_info` returns null when the response is an error
    result or its data array is empty or absent; otherwise — provided the
    first data record is an object whose nested relation values are absent,
    null or objects — it returns a record without raising, where every one of
    the fifteen fields falls back to its default when missing (the empty
    string, false for the remote flag) and a missing or null nested relation
    yields the empty string. -/
theorem spec_C3_extract_amended (d : List (String × JVal)) :
    ((d.isEmpty = true ∨ truthyO (plookup "error" d) = true ∨ plookup "data" d = none
        ∨ plookup "data" d = some (JVal.arr [])) →
      extract_job_info d = .ok none)
    ∧ (∀ f rest, plookup "data" d = some (JVal.arr (JVal.obj f :: rest)) →
        d.isEmpty = false → truthyO (plookup "error" d) = false →
        relOk (plookup "Client_Name" f) → relOk (plookup "Account_Manager" f) →
        ∃ rec, extract_job_info d = .ok (some rec)
          ∧ (plookup "id" f = none → rec.job_id = JVal.str "")
          ∧ (plookup "Job_Opening_ID" f = none → rec.requisition_number = JVal.str "")
          ∧ (plookup "Job_Opening_Name" f = none → rec.job_title = JVal.str "")
          ∧ (plookup "Posting_Title" f = none → rec.posting_title = JVal.str "")
          ∧ (plookup "Job_Description" f = none → rec.job_description = JVal.str "")
          ∧ (plookup "Salary" f = none → rec.salary = JVal.str "")
          ∧ (plookup "$currency_symbol" f = none → rec.currency = JVal.str "")
          ∧ (plookup "Job_Opening_Status" f = none → rec.status = JVal.str "")
          ∧ (plookup "Remote_Job" f = none → rec.remote_job = JVal.bool false)
          ∧ (plookup "Date_Opened" f = none → rec.date_opened = JVal.str "")
          ∧ (plookup "Target_Date" f = none → rec.target_date = JVal.str "")
          ∧ (plookup "Work_Experience" f = none → rec.work_experience = JVal.str "")
          ∧ (plookup "Number_of_Positions" f = none →
              rec.number_of_positions = JVal.str "")
          ∧ ((plookup "Client_Name" f = none ∨ plookup "Client_Name" f = some JVal.null) →
              rec.client_name = JVal.str "")
          ∧ ((plookup "Account_Manager" f = none
              ∨ plookup "Account_Manager" f = some JVal.null) →
              rec.account_manager = JVal.str "")) := by
  constructor
  · intro h
    rcases h with h | h | h | h
    · simp [extract_job_info, h]
    · simp [extract_job_info, h]
    · by_cases hc : (d.isEmpty || truthyO (plookup "error" d)) = true
      · simp [extract_job_info, hc]
      · simp [extract_job_info, hc, h]
    · by_cases hc : (d.isEmpty || truthyO (plookup "error" d)) = true
      · simp [extract_job_info, hc]
      · simp [extract_job_info, hc, h, pyLen]
  · intro f rest hdata hemp herr hrc hra
    refine ⟨⟨pyDictGet f "id" (JVal.str ""), pyDictGet f "Job_Opening_ID" (JVal.str ""),
      pyDictGet f "Job_Opening_Name" (JVal.str ""), pyDictGet f "Posting_Title" (JVal.str ""),
      pyDictGet f "Job_Description" (JVal.str ""), pyDictGet f "Salary" (JVal.str ""),
      pyDictGet f "$currency_symbol" (JVal.str ""),
      pyDictGet f "Job_Opening_Status" (JVal.str ""),
      pyDictGet f "Remote_Job" (JVal.bool false), pyDictGet f "Date_Opened" (JVal.str ""),
      pyDictGet f "Target_Date" (JVal.str ""), pyDictGet f "Work_Experience" (JVal.str ""),
      pyDictGet f "Number_of_Positions" (JVal.str ""),
      relValue (plookup "Client_Name" f), relValue (plookup "Account_Manager" f)⟩,
      ?_, ?_, ?_, ?_, ?_, ?_, ?_, ?_, ?_, ?_, ?_, ?_, ?_, ?_, ?_, ?_⟩
    · rw [extract_job_info, if_neg (by simp [hemp, herr]), hdata]
      simp [pyLen, pyIndexZero, relation_field_of_relOk f "Client_Name" hrc,
        relation_field_of_relOk f "Account_Manager" hra]
    · intro h0
      simp [pyDictGet, h0]
    · intro h0
      simp [pyDictGet, h0]
    · intro h0
      simp [pyDictGet, h0]
    · intro h0
      simp [pyDictGet, h0]
    · intro h0
      simp [pyDictGet, h0]
    · intro h0
      simp [pyDictGet, h0]
    · intro h0
      simp [pyDictGet, h0]
    · intro h0
      simp [pyDictGet, h0]
    · intro h0
      simp [pyDictGet, h0]
    · intro h0
      simp [pyDictGet, h0]
    · intro h0
      simp [pyDictGet, h0]
    · intro h0
      simp [pyDictGet, h0]
    · intro h0
      simp [pyDictGet, h0]
    · intro h0
      rcases h0 with h0 | h0 <;> simp [relValue, h0]
    · intro h0
      rcases h0 with h0 | h0 <;> simp [relValue, h0]

theorem spec_C3_extract_amended_witness :
    ∃ rec : JobInfo,
      extract_job_info [("data", JVal.arr [JVal.obj []])] = .ok (some rec)
      ∧ rec.client_name = JVal.str "" := by
  obtain ⟨rec, h1, h2, h3, h4, h5, h6, h7, h8, h9, h10, h11, h12, h13, h14, h15, h16⟩ :=
    (spec_C3_extract_amended [("data", JVal.arr [JVal.obj []])]).2 [] [] rfl rfl rfl
      (Or.inl rfl) (Or.inl rfl)
  exact ⟨rec, h1, h15 (Or.inl rfl)⟩

/- ====================================================================
   Lemmas about tag removal
   ==================================================================== -/

theorem afterFirstGt_length : ∀ (l r : List Char),
    afterFirstGt l = some r → r.length < l.length := by
  intro l
  induction l with
  | nil => intro r h; simp [afterFirstGt] at h
  | cons c rest ih =>
    intro r h
    by_cases hc : c = '>'
    · simp only [afterFirstGt, if_pos hc] at h
      injection h with h
      subst h
      exact Nat.lt_succ_self _
    · simp only [afterFirstGt, if_neg hc] at h
      exact Nat.lt_succ_of_lt (ih r h)

theorem afterFirstGt_mem : ∀ (l r : List Char) (x : Char),
    afterFirstGt l = some r → x ∈ r → x ∈ l := by
  intro l
  induction l with
  | nil => intro r x h hx; simp [afterFirstGt] at h
  | cons c rest ih =>
    intro r x h hx
    by_cases hc : c = '>'
    · simp only [afterFirstGt, if_pos hc] at h
      injection h with h
      subst h
      exact List.mem_cons_of_mem c hx
    · simp only [afterFirstGt, if_neg hc] at h
      exact List.mem_cons_of_mem c (ih r x h hx)

theorem afterFirstGt_none (l : List Char) (h : '>' ∉ l) : afterFirstGt l = none := by
  induction l with
  | nil => rfl
  | cons c rest ih =>
    have hc : c ≠ '>' := by
      intro e
      exact h (by rw [← e]; exact List.mem_cons_self c rest)
    simp only [afterFirstGt, if_neg hc]
    exact ih (fun hm => h (List.mem_cons_of_mem c hm))

theorem afterFirstGt_isSome (l : List Char) (h : '>' ∈ l) :
    ∃ r, afterFirstGt l = some r := by
  induction l with
  | nil => simp at h
  | cons c rest ih =>
    by_cases hc : c = '>'
    · exact ⟨rest, by simp [afterFirstGt, hc]⟩
    · have hmem : '>' ∈ rest := by
        rcases List.mem_cons.mp h with h0 | h0
        · exact absurd h0.symm hc
        · exact h0
      obtain ⟨r, hr⟩ := ih hmem
      exact ⟨r, by simp [afterFirstGt, hc, hr]⟩

theorem removeTagsGo_subset : ∀ (n : Nat) (l : List Char) (x : Char),
    x ∈ removeTagsGo n l → x ∈ l := by
  intro n
  induction n with
  | zero =>
    intro l x h
    cases l with
    | nil => simp [removeTagsGo] at h
    | cons c rest => exact h
  | succ n ih =>
    intro l x h
    cases l with
    | nil => simp [removeTagsGo] at h
    | cons c rest =>
      by_cases hc : c = '<'
      · cases rest with
        | nil =>
          simp only [removeTagsGo, if_pos hc] at h
          exact h
        | cons d t =>
          by_cases hd : d = '>'
          · simp only [removeTagsGo, if_pos hc, if_pos hd] at h
            rcases List.mem_cons.mp h with h0 | h0
            · rw [h0]; exact List.mem_cons_self c (d :: t)
            · exact List.mem_cons_of_mem c (ih (d :: t) x h0)
          · cases haf : afterFirstGt (d :: t) with
            | some r =>
              simp only [removeTagsGo, if_pos hc, if_neg hd, haf] at h
              exact List.mem_cons_of_mem c (afterFirstGt_mem (d :: t) r x haf (ih r x h))
            | none =>
              simp only [removeTagsGo, if_pos hc, if_neg hd, haf] at h
              rcases List.mem_cons.mp h with h0 | h0
              · rw [h0]; exact List.mem_cons_self c (d :: t)
              · exact List.mem_cons_of_mem c (ih (d :: t) x h0)
      · simp only [removeTagsGo, if_neg hc] at h
        rcases List.mem_cons.mp h with h0 | h0
        · rw [h0]; exact List.mem_cons_self c rest
        · exact List.mem_cons_of_mem c (ih rest x h0)

theorem removeTagsGo_head_ne (n : Nat) (c : Char) (rest : List Char) (hc : c ≠ '<') :
    (removeTagsGo n (c :: rest)).head? = some c := by
  cases n with
  | zero => rfl
  | succ n => simp [removeTagsGo, hc]

theorem tagInv_removeTagsGo : ∀ (n : Nat) (l : List Char),
    l.length ≤ n → TagInv (removeTagsGo n l) := by
  intro n
  induction n with
  | zero =>
    intro l hl
    have h0 : l = [] := List.eq_nil_of_length_eq_zero (Nat.le_zero.mp hl)
    subst h0
    trivial
  | succ n ih =>
    intro l hl
    cases l with
    | nil => trivial
    | cons c rest =>
      have hrl : rest.length ≤ n := by simpa using hl
      by_cases hc : c = '<'
      · cases rest with
        | nil =>
          simp only [removeTagsGo, if_pos hc]
          exact ⟨fun _ => Or.inl (by simp), trivial⟩
        | cons d t =>
          by_cases hd : d = '>'
          · simp only [removeTagsGo, if_pos hc, if_pos hd]
            refine ⟨fun _ => Or.inr ?_, ih (d :: t) hrl⟩
            subst hd
            exact removeTagsGo_head_ne n '>' t (by decide)
          · cases haf : afterFirstGt (d :: t) with
            | some r =>
              simp only [removeTagsGo, if_pos hc, if_neg hd, haf]
              exact ih r (Nat.le_of_lt (Nat.lt_of_lt_of_le
                (afterFirstGt_length (d :: t) r haf) hrl))
            | none =>
              simp only [removeTagsGo, if_pos hc, if_neg hd, haf]
              have hng : '>' ∉ (d :: t) := by
                intro hm
                obtain ⟨r, hr⟩ := afterFirstGt_isSome (d :: t) hm
                rw [haf] at hr
                exact Option.noConfusion hr
              refine ⟨fun _ => Or.inl ?_, ih (d :: t) hrl⟩
              intro hm
              exact hng (removeTagsGo_subset n (d :: t) '>' hm)
      · simp only [removeTagsGo, if_neg hc]
        exact ⟨fun h => absurd h hc, ih rest hrl⟩

theorem removeTagsGo_of_tagInv : ∀ (n : Nat) (l : List Char),
    TagInv l → removeTagsGo n l = l := by
  intro n
  induction n with
  | zero =>
    intro l h
    cases l with
    | nil => rfl
    | cons c rest => rfl
  | succ n ih =>
    intro l h
    cases l with
    | nil => rfl
    | cons c rest =>
      have h' : (c = '<' → ('>' ∉ rest ∨ rest.head? = some '>')) ∧ TagInv rest := h
      by_cases hc : c = '<'
      · cases rest with
        | nil => simp [removeTagsGo, hc]
        | cons d t =>
          by_cases hd : d = '>'
          · simp only [removeTagsGo, if_pos hc, if_pos hd]
            rw [ih (d :: t) h'.2]
          · have hnot : '>' ∉ (d :: t) := by
              rcases h'.1 hc with hnot | hhead
              · exact hnot
              · exact absurd (by simpa using hhead) hd
            have haf : afterFirstGt (d :: t) = none := afterFirstGt_none _ hnot
            simp only [removeTagsGo, if_pos hc, if_neg hd, haf]
            rw [ih (d :: t) h'.2]
      · simp only [removeTagsGo, if_neg hc]
        rw [ih rest h'.2]

theorem tagInv_removeTags (l : List Char) : TagInv (removeTags l) :=
  tagInv_removeTagsGo l.length l (Nat.le_refl _)

/- ====================================================================
   Lemmas about whitespace collapsing and stripping
   ==================================================================== -/

theorem collapseGo_cons_notSpace (b : Bool) (c : Char) (rest : List Char)
    (h : pySpace c = false) :
    collapseGo b (c :: rest) = c :: collapseGo false rest := by
  simp [collapseGo, h]

theorem collapseGo_mem : ∀ (b : Bool) (l : List Char) (x : Char),
    x ∈ collapseGo b l → x = ' ' ∨ x ∈ l := by
  intro b l
  induction l generalizing b with
  | nil => intro x h; simp [collapseGo] at h
  | cons c rest ih =>
    intro x h
    by_cases hs : pySpace c = true
    · simp only [collapseGo, if_pos hs] at h
      cases b with
      | true =>
        rcases ih true x h with h0 | h0
        · exact Or.inl h0
        · exact Or.inr (List.mem_cons_of_mem c h0)
      | false =>
        rcases List.mem_cons.mp h with h0 | h0
        · exact Or.inl h0
        · rcases ih true x h0 with h1 | h1
          · exact Or.inl h1
          · exact Or.inr (List.mem_cons_of_mem c h1)
    · simp only [collapseGo, if_neg hs] at h
      rcases List.mem_cons.mp h with h0 | h0
      · rw [h0]; exact Or.inr (List.mem_cons_self c rest)
      · rcases ih false x h0 with h1 | h1
        · exact Or.inl h1
        · exact Or.inr (List.mem_cons_of_mem c h1)

theorem collapseGo_true_headNotSpace : ∀ l : List Char,
    headNotSpace (collapseGo true l) := by
  intro l
  induction l with
  | nil => intro c hc; simp [collapseGo] at hc
  | cons c rest ih =>
    by_cases hs : pySpace c = true
    · simpa [collapseGo, hs] using ih
    · intro x hx
      simp only [collapseGo, if_neg hs, List.head?_cons, Option.some.injEq] at hx
      cases hpc : pySpace c with
      | false => rw [← hx]; exact hpc
      | true => exact absurd hpc hs

theorem wsOk_collapseGo : ∀ (l : List Char) (b : Bool), WsOk (collapseGo b l) := by
  intro l
  induction l with
  | nil => intro b; trivial
  | cons c rest ih =>
    intro b
    by_cases hs : pySpace c = true
    · simp only [collapseGo, if_pos hs]
      cases b with
      | true => exact ih true
      | false => exact ⟨fun _ => ⟨rfl, collapseGo_true_headNotSpace rest⟩, ih true⟩
    · simp only [collapseGo, if_neg hs]
      exact ⟨fun hsc => absurd hsc hs, ih false⟩

theorem collapseGo_of_wsOk : ∀ l : List Char, WsOk l →
    collapseGo false l = l ∧ (headNotSpace l → collapseGo true l = l) := by
  intro l
  induction l with
  | nil => intro h; exact ⟨rfl, fun _ => rfl⟩
  | cons c rest ih =>
    intro h
    have h' : (pySpace c = true → (c = ' ' ∧ headNotSpace rest)) ∧ WsOk rest := h
    obtain ⟨ihf, iht⟩ := ih h'.2
    constructor
    · by_cases hs : pySpace c = true
      · obtain ⟨hc, hns⟩ := h'.1 hs
        have hstep : collapseGo false (c :: rest) = ' ' :: collapseGo true rest := by
          simp [collapseGo, hs]
        rw [hstep, iht hns, hc]
      · have hcf : pySpace c = false := by
          cases hpc : pySpace c with
          | false => rfl
          | true => exact absurd hpc hs
        rw [collapseGo_cons_notSpace false c rest hcf, ihf]
    · intro hns
      have hcf : pySpace c = false := hns c rfl
      rw [collapseGo_cons_notSpace true c rest hcf, ihf]

theorem tagInv_collapseGo : ∀ (l : List Char) (b : Bool),
    TagInv l → TagInv (collapseGo b l) := by
  intro l
  induction l with
  | nil => intro b h; trivial
  | cons c rest ih =>
    intro b h
    have h' : (c = '<' → ('>' ∉ rest ∨ rest.head? = some '>')) ∧ TagInv rest := h
    by_cases hs : pySpace c = true
    · simp only [collapseGo, if_pos hs]
      cases b with
      | true => exact ih true h'.2
      | false => exact ⟨fun e => absurd e (by decide), ih true h'.2⟩
    · have hcf : pySpace c = false := by
        cases hpc : pySpace c with
        | false => rfl
        | true => exact absurd hpc hs
      rw [collapseGo_cons_notSpace b c rest hcf]
      refine ⟨?_, ih false h'.2⟩
      intro hc
      rcases h'.1 hc with hng | hhead
      · left
        intro hm
        rcases collapseGo_mem false rest '>' hm with he | hin
        · exact absurd he (by decide)
        · exact hng hin
      · right
        cases rest with
        | nil => simp at hhead
        | cons d t =>
          have hd : d = '>' := by simpa using hhead
          subst hd
          rw [collapseGo_cons_notSpace false '>' t (by decide)]
          rfl

theorem dropWhile_headNotSpace : ∀ l : List Char,
    headNotSpace (l.dropWhile pySpace) := by
  intro l
  induction l with
  | nil => intro c hc; simp [List.dropWhile] at hc
  | cons x t ih =>
    by_cases hx : pySpace x = true
    · simpa [List.dropWhile_cons, hx] using ih
    · have hxf : pySpace x = false := by
        cases hpx : pySpace x with
        | false => rfl
        | true => exact absurd hpx hx
      intro c hc
      simp only [List.dropWhile_cons, hxf, Bool.false_eq_true, if_false,
        List.head?_cons, Option.some.injEq] at hc
      rw [← hc]
      exact hxf

theorem dropWhile_eq_self (l : List Char) (h : headNotSpace l) :
    l.dropWhile pySpace = l := by
  cases l with
  | nil => rfl
  | cons x t =>
    have hx : pySpace x = false := h x rfl
    simp [List.dropWhile_cons, hx]

theorem dropWhile_suffix : ∀ l : List Char, ∃ t, l = t ++ l.dropWhile pySpace := by
  intro l
  induction l with
  | nil => exact ⟨[], rfl⟩
  | cons x xs ih =>
    by_cases hx : pySpace x = true
    · obtain ⟨t, ht⟩ := ih
      refine ⟨x :: t, ?_⟩
      simp only [List.dropWhile_cons, hx, if_true, List.cons_append]
      exact congrArg (x :: ·) ht
    · exact ⟨[], by simp [List.dropWhile_cons, hx]⟩

theorem headNotSpace_append_left (a b : List Char) (h : headNotSpace (a ++ b)) :
    headNotSpace a := by
  intro c hc
  cases a with
  | nil => simp at hc
  | cons x t =>
    simp only [List.head?_cons, Option.some.injEq] at hc
    have hx := h x rfl
    rw [← hc]
    exact hx

theorem tagInv_append_right : ∀ (a b : List Char), TagInv (a ++ b) → TagInv b := by
  intro a
  induction a with
  | nil => intro b h; exact h
  | cons x t ih =>
    intro b h
    have h' : (x = '<' → ('>' ∉ (t ++ b) ∨ (t ++ b).head? = some '>'))
        ∧ TagInv (t ++ b) := h
    exact ih b h'.2

theorem tagInv_append_left : ∀ (a b : List Char), TagInv (a ++ b) → TagInv a := by
  intro a
  induction a with
  | nil => intro b h; trivial
  | cons x t ih =>
    intro b h
    have h' : (x = '<' → ('>' ∉ (t ++ b) ∨ (t ++ b).head? = some '>'))
        ∧ TagInv (t ++ b) := h
    refine ⟨?_, ih b h'.2⟩
    intro hx
    rcases h'.1 hx with hng | hhead
    · left
      intro hm
      exact hng (List.mem_append_left b hm)
    · cases t with
      | nil => left; simp
      | cons y u =>
        have hy : y = '>' := by simpa using hhead
        right
        rw [hy]
        rfl

theorem wsOk_append_right : ∀ (a b : List Char), WsOk (a ++ b) → WsOk b := by
  intro a
  induction a with
  | nil => intro b h; exact h
  | cons x t ih =>
    intro b h
    have h' : (pySpace x = true → (x = ' ' ∧ headNotSpace (t ++ b)))
        ∧ WsOk (t ++ b) := h
    exact ih b h'.2

theorem wsOk_append_left : ∀ (a b : List Char), WsOk (a ++ b) → WsOk a := by
  intro a
  induction a with
  | nil => intro b h; trivial
  | cons x t ih =>
    intro b h
    have h' : (pySpace x = true → (x = ' ' ∧ headNotSpace (t ++ b)))
        ∧ WsOk (t ++ b) := h
    exact ⟨fun hs => ⟨(h'.1 hs).1, headNotSpace_append_left t b (h'.1 hs).2⟩, ih b h'.2⟩

theorem stripTrailing_reverse (l : List Char) :
    (stripTrailing l).reverse = l.reverse.dropWhile pySpace := by
  simp [stripTrailing]

theorem stripTrailing_prefix (l : List Char) : ∃ t, l = stripTrailing l ++ t := by
  obtain ⟨t, ht⟩ := dropWhile_suffix l.reverse
  refine ⟨t.reverse, ?_⟩
  have h2 := congrArg List.reverse ht
  simpa [stripTrailing, List.reverse_append] using h2

theorem strippedL_pyStrip (l : List Char) : StrippedL (pyStrip l) := by
  constructor
  · obtain ⟨t, ht⟩ := stripTrailing_prefix (stripLeading l)
    have h1 : headNotSpace (stripLeading l) := dropWhile_headNotSpace l
    rw [ht] at h1
    exact headNotSpace_append_left _ _ h1
  · show headNotSpace (stripTrailing (stripLeading l)).reverse
    rw [stripTrailing_reverse]
    exact dropWhile_headNotSpace _

theorem pyStrip_of_strippedL (l : List Char) (h : StrippedL l) : pyStrip l = l := by
  obtain ⟨h1, h2⟩ := h
  have hl : stripLeading l = l := dropWhile_eq_self l h1
  rw [pyStrip, hl, stripTrailing, dropWhile_eq_self l.reverse h2, List.reverse_reverse]

theorem tagInv_pyStrip (l : List Char) (h : TagInv l) : TagInv (pyStrip l) := by
  have h1 : TagInv (stripLeading l) := by
    obtain ⟨t, ht⟩ := dropWhile_suffix l
    rw [ht] at h
    exact tagInv_append_right t _ h
  obtain ⟨t2, ht2⟩ := stripTrailing_prefix (stripLeading l)
  rw [ht2] at h1
  exact tagInv_append_left _ _ h1

theorem wsOk_pyStrip (l : List Char) (h : WsOk l) : WsOk (pyStrip l) := by
  have h1 : WsOk (stripLeading l) := by
    obtain ⟨t, ht⟩ := dropWhile_suffix l
    rw [ht] at h
    exact wsOk_append_right t _ h
  obtain ⟨t2, ht2⟩ := stripTrailing_prefix (stripLeading l)
  rw [ht2] at h1
  exact wsOk_append_left _ _ h1

theorem tagInv_cleanList (l : List Char) : TagInv (cleanList l) :=
  tagInv_pyStrip _ (tagInv_collapseGo _ false (tagInv_removeTags l))

theorem wsOk_cleanList (l : List Char) : WsOk (cleanList l) :=
  wsOk_pyStrip _ (wsOk_collapseGo _ false)

theorem strippedL_cleanList (l : List Char) : StrippedL (cleanList l) :=
  strippedL_pyStrip _

theorem cleanList_idem (l : List Char) : cleanList (cleanList l) = cleanList l := by
  have h1 := tagInv_cleanList l
  have h2 := wsOk_cleanList l
  have h3 := strippedL_cleanList l
  show pyStrip (collapseWs (removeTags (cleanList l))) = cleanList l
  rw [show removeTags (cleanList l) = cleanList l from
    removeTagsGo_of_tagInv _ _ h1]
  rw [show collapseWs (cleanList l) = cleanList l from (collapseGo_of_wsOk _ h2).1]
  exact pyStrip_of_strippedL _ h3

theorem noTagPattern_of_tagInv (l : List Char) (h : TagInv l) : NoTagPattern l := by
  intro a m b heq
  rw [heq] at h
  have h2 := tagInv_append_right a _ h
  have h3 : ('<' = '<' → ('>' ∉ (m ++ '>' :: b) ∨ (m ++ '>' :: b).head? = some '>'))
      ∧ TagInv (m ++ '>' :: b) := h2
  rcases h3.1 rfl with hng | hhead
  · exact (hng (List.mem_append_right m (List.mem_cons_self '>' b))).elim
  · cases m with
    | nil => exact Or.inl rfl
    | cons x m' =>
      have hx : x = '>' := by simpa using hhead
      exact Or.inr (by rw [hx]; exact List.mem_cons_self '>' m')

theorem noDoubleWs_of_wsOk (l : List Char) (h : WsOk l) : NoDoubleWs l := by
  intro a c d b heq
  rw [heq] at h
  have h2 := wsOk_append_right a _ h
  have h3 : (pySpace c = true → (c = ' ' ∧ headNotSpace (d :: b))) ∧ WsOk (d :: b) := h2
  by_cases hc : pySpace c = true
  · exact Or.inr ((h3.1 hc).2 d rfl)
  · left
    cases hpc : pySpace c with
    | false => rfl
    | true => exact absurd hpc hc

theorem clean_props (s : String) :
    TagInv (clean_job_description s).data ∧ WsOk (clean_job_description s).data := by
  by_cases hs : s = ""
  · subst hs
    exact ⟨trivial, trivial⟩
  · rw [clean_job_description, if_neg hs]
    exact ⟨tagInv_cleanList s.data, wsOk_cleanList s.data⟩

theorem clean_job_description_py_unfold (v : JVal) :
    clean_job_description_py v =
      (if v.truthy then
        match v with
        | .str s => .ok (clean_job_description s)
        | _ => .error "TypeError"
      else .ok "") := rfl

theorem clean_py_props (v : JVal) (cd : String)
    (h : clean_job_description_py v = .ok cd) :
    TagInv cd.data ∧ WsOk cd.data := by
  rw [clean_job_description_py_unfold] at h
  by_cases ht : v.truthy = true
  · rw [if_pos ht] at h
    cases v with
    | str s =>
      simp only [Except.ok.injEq] at h
      rw [← h]
      exact clean_props s
    | null => exact absurd h (by simp)
    | bool b => exact absurd h (by simp)
    | num n => exact absurd h (by simp)
    | arr l => exact absurd h (by simp)
    | obj f => exact absurd h (by simp)
  · rw [if_neg ht] at h
    simp only [Except.ok.injEq] at h
    rw [← h]
    exact ⟨trivial, trivial⟩

/-- C2 counterexample: the cleaned output of "a<>b" still contains a substring
    delimited by a leading `'<'` and a trailing `'>'` (the regex `<[^>]+>`
    requires at least one character between the brackets, so "<>" survives),
    refuting the claim that the output contains no such substring for every
    input. -/
theorem spec_C2_clean_description_counterexample :
    ∃ i j : Nat, i < j
      ∧ (clean_job_description "a<>b").data.get? i = some '<'
      ∧ (clean_job_description "a<>b").data.get? j = some '>' :=
  ⟨1, 2, by decide⟩

/-- C2 amended: for every input, the cleaned output contains no substring
    matching the tag pattern (a `'<'`, one or more non-`'>'` characters, then
    `'>'`) and no two consecutive whitespace characters — and hence so does
    the `clean_description` field of every payload `get_job_for_similarity`
    builds; the example "<p>Hello   world</p>\n<br/>Bye" cleans to exactly
    "Hello world Bye". -/
theorem spec_C2_clean_description_amended (s : String) (raw : List (String × JVal))
    (p : SimPayload) :
    (NoTagPattern (clean_job_description s).data
      ∧ NoDoubleWs (clean_job_description s).data)
    ∧ (get_job_for_similarity raw = .ok (some p) →
        NoTagPattern p.clean_description.data ∧ NoDoubleWs p.clean_description.data)
    ∧ clean_job_description "<p>Hello   world</p>\n<br/>Bye" = "Hello world Bye" := by
  refine ⟨⟨noTagPattern_of_tagInv _ (clean_props s).1,
    noDoubleWs_of_wsOk _ (clean_props s).2⟩, ?_, by decide⟩
  intro h
  rw [get_job_for_similarity] at h
  by_cases hc : (raw.isEmpty || truthyO (plookup "error" raw)) = true
  · rw [if_pos hc] at h
    exact absurd h (by simp)
  · rw [if_neg hc] at h
    split at h
    · exact absurd h (by simp)
    · exact absurd h (by simp)
    · split at h
      · exact absurd h (by simp)
      · rename_i cd heq
        simp only [Except.ok.injEq, Option.some.injEq] at h
        rw [← h]
        obtain ⟨h1, h2⟩ := clean_py_props _ _ heq
        exact ⟨noTagPattern_of_tagInv _ h1, noDoubleWs_of_wsOk _ h2⟩

theorem spec_C2_clean_description_amended_witness :
    NoTagPattern c2payload.clean_description.data
    ∧ NoDoubleWs c2payload.clean_description.data :=
  (spec_C2_clean_description_amended "" c2raw c2payload).2.1 rfl

/-- C8: `clean_job_description` is idempotent — applying it to its own output
    changes nothing. -/
theorem spec_C8_clean_idempotent (s : String) :
    clean_job_description (clean_job_description s) = clean_job_description s := by
  by_cases hs : s = ""
  · subst hs
    rfl
  · have hcs : clean_job_description s = String.mk (cleanList s.data) := by
      rw [clean_job_description, if_neg hs]
    by_cases h0 : String.mk (cleanList s.data) = ""
    · rw [hcs, h0]
      rfl
    · rw [hcs, clean_job_description, if_neg h0]
      show String.mk (cleanList (cleanList s.data)) = String.mk (cleanList s.data)
      rw [cleanList_idem]
